import Mathlib

/-!
# echo server: target decoding and the session coroutine

A shallow embedding of `src/src/echo/Session.cpp`:

* `getPathFromTarget`, `getArgsFromTarget` (the two static helpers), over
  models of the `std::regex` iterators they use;
* `SessionImp` with `close`, `badRequest`, `handleRequest`, `start` and the
  coroutine body `operator()`, over a small model of the Boost.Beast
  message operations (`keep_alive`, `prepare_payload`, `need_eof`, `clear`)
  and of the asio completion machinery.

`std::string` is a list of characters (`Str`); a byte is the character with
the same code.
-/

namespace echo

/-! ## Strings and the regex iterators -/

/-- A `std::string`, as the list of its characters. -/
abbrev Str := List Char

/-- The `#define SERVER_NAME "echo_server"` of Session.cpp. -/
def SERVER_NAME : Str := "echo_server".toList

/-- The `#define MIME_TEXT "text/plain"` of Session.cpp. -/
def MIME_TEXT : Str := "text/plain".toList

/-- The class `\w` of an ECMAScript `std::regex` in the "C" locale:
alphanumeric or underscore. -/
def regexWord (c : Char) : Bool := c.isAlphanum || c == '_'

/-- The bracket expression `[\w/]` of `pathMatch`. -/
def regexWordOrSlash (c : Char) : Bool := regexWord c || c == '/'

/-- The class `\d` of an ECMAScript `std::regex` in the "C" locale. -/
def regexDigit (c : Char) : Bool := c.isDigit

/-- The tokens of `std::sregex_token_iterator{b, e, re, -1}` for a regex `re`
that matches exactly the one character `sep`, read from the point where `cur`
is the text since the last match and `matched` tells whether a match was seen.
Every match yields the text before it; the text after the last match is
yielded when it is non-empty, and the whole sequence is yielded (also when
empty) when there is no match at all. -/
def tokenLoop (sep : Char) : Str → Bool → Str → List Str
  | cur, matched, [] => if matched && cur.isEmpty then [] else [cur]
  | cur, matched, c :: rest =>
    if c == sep then cur :: tokenLoop sep [] true rest
    else tokenLoop sep (cur ++ [c]) matched rest

/-- All tokens of `std::sregex_token_iterator{s.begin(), s.end(), re, -1}`
for the one-character regex `sep`. -/
def regexTokens (sep : Char) (s : Str) : List Str := tokenLoop sep [] false s

/-- The call `std::regex_match(path, tmp, pathMatch)` with
`pathMatch = ^[\w/]+$`: the whole of `path` is one or more characters of the
class `[\w/]`. -/
def pathMatch (path : Str) : Bool := !path.isEmpty && path.all regexWordOrSlash

/-- The function `getPathFromTarget` (Session.cpp 191-214): `path` starts
empty, takes the first token of the split on `\?` (the loop breaks after one
iteration), and is returned when it matches `pathMatch`. -/
def getPathFromTarget (target : Str) : Bool × Str :=
  let path : Str :=
    match regexTokens '?' target with
    | [] => []
    | token :: _ => token
  if pathMatch path then (true, path) else (false, [])

/-- What `std::stoi` and friends throw. -/
inductive exception where
  | invalid_argument
  | out_of_range
  deriving DecidableEq, Repr

/-- The largest `int`. -/
def INT_MAX : Nat := 2147483647

/-- The value of a string of decimal digit characters read in base 16. -/
def hexValue (digits : Str) : Nat :=
  digits.foldl (fun acc d => 16 * acc + (d.toNat - '0'.toNat)) 0

/-- The call `std::stoi(digits, nullptr, 16)` on a non-empty string of decimal
digit characters (all that `%\d+` lets through): the base-16 value, and
`std::out_of_range` when it does not fit an `int`. -/
def stoi (digits : Str) : Except exception Nat :=
  if hexValue digits > INT_MAX then .error .out_of_range else .ok (hexValue digits)

/-- State of the scan for `%\d+`: outside a match, after a `%` at `start`, or
inside the digits of the match that starts at `start`. -/
inductive ScanState where
  | idle
  | percent (start : Nat)
  | digits (start : Nat) (ds : Str)

/-- The matches of `std::sregex_iterator{str.begin(), str.end(), regex}` for
`regex = %\d+`, each as `(i->position(), i->str())`: leftmost, greedy and
non-overlapping. `pos` is the index of the next character. -/
def scanEscapes : Nat → ScanState → Str → List (Nat × Str)
  | _, .digits start ds, [] => [(start, '%' :: ds)]
  | _, _, [] => []
  | pos, .idle, c :: rest =>
    if c == '%' then scanEscapes (pos + 1) (.percent pos) rest
    else scanEscapes (pos + 1) .idle rest
  | pos, .percent start, c :: rest =>
    if regexDigit c then scanEscapes (pos + 1) (.digits start [c]) rest
    else if c == '%' then scanEscapes (pos + 1) (.percent pos) rest
    else scanEscapes (pos + 1) .idle rest
  | pos, .digits start ds, c :: rest =>
    if regexDigit c then scanEscapes (pos + 1) (.digits start (ds ++ [c])) rest
    else if c == '%' then (start, '%' :: ds) :: scanEscapes (pos + 1) (.percent pos) rest
    else (start, '%' :: ds) :: scanEscapes (pos + 1) .idle rest

/-- The call `str.substr(pos, len)` for `pos ≤ str.size()`. -/
def substr (str : Str) (pos len : Nat) : Str := (str.drop pos).take len

/-- The body of the inner `for` over the matches (Session.cpp 268-279) run
over the remaining matches, from the current `out` and `prev`; the result is
the `out` and `prev` after the last match. -/
def decodeLoop (str : Str) : List (Nat × Str) → Str → Nat → Except exception (Str × Nat)
  | [], out, prev => .ok (out, prev)
  | (position, encodedSymb) :: more, out, prev =>
    let out := out ++ substr str prev position
    match stoi (encodedSymb.drop 1) with
    | .error e => .error e
    | .ok asciiNum =>
      let out := if asciiNum != 0 && asciiNum < 255 then out ++ [Char.ofNat asciiNum] else out
      decodeLoop str more out (position + encodedSymb.length)

/-- The local `out` at the end of one iteration of the loop
`for (std::string &str : keyVal)` (Session.cpp 260-282), or the exception
that `std::stoi` threw in it. -/
def decodeOut (str : Str) : Except exception Str :=
  match decodeLoop str (scanEscapes 0 .idle str) [] 0 with
  | .error e => .error e
  | .ok (out, prev) => .ok (out ++ str.drop prev)

/-- The loop `for (std::string &str : keyVal)` (Session.cpp 260-282): every
iteration builds its local `out` and drops it at the closing brace; `str` is
never assigned, so the loop leaves `keyVal` as it was and only an exception
gets out of it. -/
def decodeKeyVal : List Str → Except exception Unit
  | [] => .ok ()
  | str :: more =>
    match decodeOut str with
    | .error e => .error e
    | .ok _ => decodeKeyVal more

/-- The order `std::less<std::string>` of the map's keys: lexicographic on
the character codes. -/
def strLess : Str → Str → Bool
  | [], [] => false
  | [], _ :: _ => true
  | _ :: _, [] => false
  | a :: as, b :: bs =>
    if a.toNat < b.toNat then true
    else if b.toNat < a.toNat then false
    else strLess as bs

/-- The type `std::multimap<std::string, std::string>`: its pairs in
iteration order (by key, equal keys in insertion order). -/
abbrev ArgMap := List (Str × Str)

/-- The call `argMap.emplace(key, val)`: the pair goes before the first
entry with a greater key. -/
def ArgMap.emplace : ArgMap → Str → Str → ArgMap
  | [], key, val => [(key, val)]
  | (k0, v0) :: more, key, val =>
    if strLess key k0 then (key, val) :: (k0, v0) :: more
    else (k0, v0) :: ArgMap.emplace more key val

/-- The call `target.find("?")`: the index of the first `?`, `none` for
`std::string::npos`. -/
def find (c : Char) : Str → Option Nat
  | [] => none
  | x :: xs => if x == c then some 0 else (find c xs).map (· + 1)

/-- The outer loop of `getArgsFromTarget` (Session.cpp 231-285) over the
remaining `&`-separated tokens, with the map built so far. -/
def argsLoop : List Str → ArgMap → Except exception (Bool × ArgMap)
  | [], argMap => .ok (true, argMap)
  | arg :: more, argMap =>
    let keyVal := regexTokens '=' arg
    if keyVal.isEmpty || keyVal.length > 2 then .ok (false, [])
    else
      let keyVal := if keyVal.length == 1 then keyVal ++ [[]] else keyVal
      match decodeKeyVal keyVal with
      | .error e => .error e
      | .ok _ => argsLoop more (argMap.emplace (keyVal.headD []) (keyVal.getLastD []))

/-- The function `getArgsFromTarget` (Session.cpp 216-288). An `error` is an
exception leaving the function. -/
def getArgsFromTarget (target : Str) : Except exception (Bool × ArgMap) :=
  match find '?' target with
  | none => .ok (true, [])
  | some pos =>
    let argsStr := target.drop (pos + 1)
    argsLoop (regexTokens '&' argsStr) []

/-! ## The Boost.Beast messages, as far as the session uses them -/

/-- The header fields that the session sets or that decide `keep_alive` and
`need_eof`. `connection_close` and `connection_keep_alive` say whether the
`Connection` field holds the token `close`, `keep-alive`; `chunked` whether
`Transfer-Encoding` ends in `chunked`. -/
structure Fields where
  server : Option Str := none
  content_type : Option Str := none
  content_length : Option Nat := none
  chunked : Bool := false
  connection_close : Bool := false
  connection_keep_alive : Bool := false
  deriving DecidableEq, Repr

/-- The type `http::request<http::vector_body<uint8_t>>`. -/
structure Request where
  version : Nat := 11
  target : Str := []
  fields : Fields := {}
  body : Str := []
  deriving DecidableEq, Repr

/-- The type `http::response<http::vector_body<uint8_t>>`; a fresh response
is HTTP/1.1 with status 200, no field and an empty body. -/
structure Response where
  version : Nat := 11
  result : Nat := 200
  fields : Fields := {}
  body : Str := []
  deriving DecidableEq, Repr

/-- The status `http::status::ok`. -/
def status_ok : Nat := 200

/-- The status `http::status::bad_request`. -/
def status_bad_request : Nat := 400

/-- Beast `message::keep_alive()`: before HTTP/1.1 the connection persists
when `Connection` holds `keep-alive`, from HTTP/1.1 on unless it holds
`close`. -/
def Fields.keep_alive (f : Fields) (version : Nat) : Bool :=
  if version < 11 then f.connection_keep_alive else !f.connection_close

/-- Beast `message::keep_alive(bool)`: rewrites the tokens of `Connection`.
Before HTTP/1.1 it removes `close` and holds `keep-alive` exactly when asked
to persist; from HTTP/1.1 on it removes `keep-alive` and holds `close`
exactly when asked not to persist. -/
def Fields.set_keep_alive (f : Fields) (version : Nat) (value : Bool) : Fields :=
  if version < 11 then
    { f with connection_close := false, connection_keep_alive := value }
  else
    { f with connection_close := !value, connection_keep_alive := false }

/-- The call `req.keep_alive()`. -/
def Request.keep_alive (req : Request) : Bool := req.fields.keep_alive req.version

/-- The call `res.keep_alive()`. -/
def Response.keep_alive (res : Response) : Bool := res.fields.keep_alive res.version

/-- The call `res.keep_alive(value)`. -/
def Response.set_keep_alive (res : Response) (value : Bool) : Response :=
  { res with fields := res.fields.set_keep_alive res.version value }

/-- Beast `message::prepare_payload()` of a response with a vector body: the
payload size is known, so `Content-Length` is set to it and chunked encoding
is switched off. (It throws for a non-empty body only under a 1xx, 204 or 304
status, none of which `handleRequest` sets.) -/
def Response.prepare_payload (res : Response) : Response :=
  { res with fields := { res.fields with content_length := some res.body.length,
                                         chunked := false } }

/-- Beast `message::need_eof()` of a response. -/
def Response.need_eof (res : Response) : Bool :=
  if res.result == 204 || res.result == 304 || (100 ≤ res.result && res.result < 200)
      || res.fields.content_length.isSome || res.fields.chunked then
    !res.keep_alive
  else true

/-- The calls `res_.clear(); res_.body().clear();`: all fields and the body
go, status and version stay. -/
def Response.clear (res : Response) : Response :=
  { res with fields := {}, body := [] }

/-- The calls `req_.clear(); req_.body().clear();`. -/
def Request.clear (req : Request) : Request :=
  { req with fields := {}, body := [] }

/-! ## SessionImp -/

/-- The function `SessionImp::badRequest` (Session.cpp 80-84). -/
def badRequest (res : Response) (message : Str) : Response :=
  let res := { res with result := status_bad_request }
  let res := { res with fields := { res.fields with content_type := some MIME_TEXT } }
  { res with body := res.body ++ message }

/-- The function `SessionImp::handleRequest` (Session.cpp 86-108). -/
def handleRequest (req : Request) (res : Response) : Response :=
  let res := { res with fields := { res.fields with server := some SERVER_NAME } }
  let res := res.set_keep_alive req.keep_alive
  let target := req.target
  let res :=
    match getPathFromTarget target with
    | (true, path) =>
      let output := path
      let res := { res with result := status_ok }
      let res := { res with fields := { res.fields with content_type := some MIME_TEXT } }
      { res with body := res.body ++ output }
    | (false, _) => badRequest res "Invalid target".toList
  res.prepare_payload

/-- The value of a `boost::system::error_code` passed to a completion
handler. -/
inductive error_code where
  | success
  | end_of_stream
  | operation_aborted
  | other (value : Nat)
  deriving DecidableEq, Repr

/-- The call `error.failed()`. -/
def error_code.failed : error_code → Bool
  | .success => false
  | _ => true

/-- The value of the `asio::coroutine` base: not entered yet, suspended at
the `yield` of `async_read`, suspended at the `yield` of `async_write`, or
complete (after `yield break`). -/
inductive coroutine where
  | initial
  | at_read
  | at_write
  | complete
  deriving DecidableEq, Repr

/-- What the session does to the outside: operations on the socket and the
emission of the signal `atClose_`. -/
inductive Effect where
  | async_read
  | async_write
  | cancel
  | shutdown
  | sock_close
  | atClose
  deriving DecidableEq, Repr

/-- An asynchronous operation whose handler has not run yet. -/
inductive AsyncOp where
  | read
  | write
  deriving DecidableEq, Repr

/-- The class `SessionImp`: coroutine value, `sock_.is_open()`, `req_` and
`res_`; with them the environment as the session sees it: the outstanding
asynchronous operation, whether `start` was called, and the effects so far
(oldest first). -/
structure SessionImp where
  coro : coroutine := .initial
  sock_open : Bool := true
  req_ : Request := {}
  res_ : Response := {}
  pending : Option AsyncOp := none
  started : Bool := false
  effects : List Effect := []
  deriving DecidableEq, Repr

/-- The function `SessionImp::close` (Session.cpp 54-77): the teardown of the
socket is guarded by `is_open`, the emission of `atClose_` is not. -/
def SessionImp.close (s : SessionImp) : SessionImp :=
  let s :=
    if s.sock_open then
      { s with sock_open := false,
               effects := s.effects ++ [Effect.cancel, Effect.shutdown, Effect.sock_close] }
    else s
  { s with effects := s.effects ++ [Effect.atClose] }

/-- The statement `yield http::async_read(...)`: the read is issued and the
coroutine suspends there. -/
def SessionImp.yield_async_read (s : SessionImp) : SessionImp :=
  { s with coro := .at_read, pending := some .read,
           effects := s.effects ++ [Effect.async_read] }

/-- The statement `yield http::async_write(...)`. -/
def SessionImp.yield_async_write (s : SessionImp) : SessionImp :=
  { s with coro := .at_write, pending := some .write,
           effects := s.effects ++ [Effect.async_write] }

/-- The function `SessionImp::operator()` (Session.cpp 110-162), the
completion handler of every read and write and the body of `start`: without
error the coroutine is re-entered at its current value and runs to the next
`yield`; with any error the session is closed and the coroutine value is left
alone. `transfered` is only logged. -/
def SessionImp.operator_call (s : SessionImp) (error : error_code) (_transfered : Nat) : SessionImp :=
  if !error.failed then
    match s.coro with
    | .initial => s.yield_async_read
    | .at_read =>
      let s := { s with res_ := handleRequest s.req_ s.res_ }
      s.yield_async_write
    | .at_write =>
      if s.res_.need_eof then
        { s.close with coro := .complete }
      else
        let s := { s with req_ := s.req_.clear, res_ := s.res_.clear }
        s.yield_async_read
    | .complete => s
  else if error == .end_of_stream then s.close
  else s.close

/-- The function `SessionImp::start` (Session.cpp 50-52). -/
def SessionImp.start (s : SessionImp) : SessionImp :=
  s.operator_call .success 0

/-- What can happen to a session: `Session::start()`, the handler of the
outstanding operation being invoked (a successful read has stored the parsed
request `parsed` in `req_`), or a call of `Session::close()` from outside. -/
inductive Event where
  | start
  | completion (error : error_code) (transfered : Nat) (parsed : Request)
  | close
  deriving DecidableEq, Repr

/-- One event. `start` happens once, and a handler runs only for an
outstanding operation; any other event is `none`. -/
def SessionImp.step (s : SessionImp) : Event → Option SessionImp
  | .start => if s.started then none else some ({ s with started := true }).start
  | .completion error transfered parsed =>
    match s.pending with
    | none => none
    | some .read =>
      let s := { s with pending := none,
                        req_ := if error.failed then s.req_ else parsed }
      some (s.operator_call error transfered)
    | some .write =>
      let s := { s with pending := none }
      some (s.operator_call error transfered)
  | .close => some s.close

/-- A sequence of events, in order. -/
def SessionImp.run (s : SessionImp) : List Event → Option SessionImp
  | [] => some s
  | e :: es =>
    match s.step e with
    | none => none
    | some t => t.run es

/-- The number of emissions of `atClose_` so far. -/
def SessionImp.atCloseCount (s : SessionImp) : Nat := s.effects.count Effect.atClose

/-- The number of asynchronous reads and writes issued so far. -/
def SessionImp.issued (s : SessionImp) : Nat :=
  s.effects.count Effect.async_read + s.effects.count Effect.async_write

/-- The number of external `close()` calls in a sequence of events. -/
def externalCloses (es : List Event) : Nat := es.count Event.close

/-- The session as the constructor leaves it: coroutine not entered, the
accepted socket open, empty request and response, nothing outstanding. -/
def SessionImp.fresh : SessionImp := {}

/-- What holds of every state a fresh session can reach: nothing is
outstanding before `start`; the coroutine is suspended at the `yield` of
the outstanding operation; and `res_` has an empty body whenever the
coroutine is before its `handleRequest` call. -/
def SessionImp.Inv (s : SessionImp) : Prop :=
  (s.started = false → s.pending = none ∧ s.coro = .initial) ∧
  (s.pending = some .read → s.coro = .at_read) ∧
  (s.pending = some .write → s.coro = .at_write) ∧
  (s.coro = .initial ∨ s.coro = .at_read → s.res_.body = [])

/-- The bound on the emissions after `n` external `close()` calls: at most
`n + 1`, and at most `n` while the session has not closed itself yet; the
socket has been closed once exactly when it is no longer open. -/
def SessionImp.CloseInv (s : SessionImp) (n : Nat) : Prop :=
  s.atCloseCount ≤ n + 1 ∧
    (s.pending ≠ none ∨ s.started = false → s.atCloseCount ≤ n) ∧
    s.effects.count Effect.sock_close = if s.sock_open then 0 else 1

/-- A word character `[A-Za-z0-9_]` or `/`, written out. -/
def isPathChar (c : Char) : Prop :=
  ('A' ≤ c ∧ c ≤ 'Z') ∨ ('a' ≤ c ∧ c ≤ 'z') ∨ ('0' ≤ c ∧ c ≤ '9') ∨ c = '_' ∨ c = '/'

instance : DecidablePred isPathChar := fun c => by
  unfold isPathChar; infer_instance

/-- The text of a target before its first `?` (the whole target when it has
none). -/
def pathPortion (target : Str) : Str := target.takeWhile (fun c => c != '?')


/-- A key-value pair of a query whose key and value are non-empty and hold
none of `&`, `=`, `%`, `?`. -/
def plainPair (p : Str × Str) : Prop :=
  p.1 ≠ [] ∧ p.2 ≠ [] ∧
    (∀ c ∈ p.1, c ≠ '&' ∧ c ≠ '=' ∧ c ≠ '%' ∧ c ≠ '?') ∧
    (∀ c ∈ p.2, c ≠ '&' ∧ c ≠ '=' ∧ c ≠ '%' ∧ c ≠ '?')

instance : DecidablePred plainPair := fun p => by
  unfold plainPair; infer_instance

/-! ## Lemmas on the decoding helpers -/

theorem regexWordOrSlash_iff (c : Char) : regexWordOrSlash c = true ↔ isPathChar c := by
  simp only [regexWordOrSlash, regexWord, isPathChar, Char.isAlphanum, Char.isAlpha,
    Char.isUpper, Char.isLower, Char.isDigit, Bool.or_eq_true, Bool.and_eq_true,
    decide_eq_true_eq, beq_iff_eq, Char.le_def]
  constructor
  · rintro ((((h | h) | h) | h) | h)
    · exact Or.inl h
    · exact Or.inr (Or.inl h)
    · exact Or.inr (Or.inr (Or.inl h))
    · exact Or.inr (Or.inr (Or.inr (Or.inl h)))
    · exact Or.inr (Or.inr (Or.inr (Or.inr h)))
  · rintro (h | h | h | h | h)
    · exact Or.inl (Or.inl (Or.inl (Or.inl h)))
    · exact Or.inl (Or.inl (Or.inl (Or.inr h)))
    · exact Or.inl (Or.inl (Or.inr h))
    · exact Or.inl (Or.inr h)
    · exact Or.inr h

theorem tokenLoop_head (sep : Char) (s cur : Str) :
    (tokenLoop sep cur false s).head? = some (cur ++ s.takeWhile (fun c => c != sep)) := by
  induction s generalizing cur with
  | nil => simp [tokenLoop]
  | cons c rest ih =>
    by_cases h : c = sep
    · simp [tokenLoop, h]
    · simp [tokenLoop, h, ih]

theorem firstToken_eq (target : Str) :
    (match regexTokens '?' target with
      | [] => []
      | token :: _ => token) = pathPortion target := by
  have h := tokenLoop_head '?' target []
  unfold regexTokens pathPortion
  cases hl : tokenLoop '?' [] false target with
  | nil => rw [hl] at h; simp at h
  | cons t ts => rw [hl] at h; simpa using h

theorem pathMatch_iff (path : Str) :
    pathMatch path = true ↔ path ≠ [] ∧ ∀ c ∈ path, isPathChar c := by
  simp [pathMatch, regexWordOrSlash_iff, List.all_eq_true]

theorem getPathFromTarget_eq (target : Str) :
    getPathFromTarget target =
      if pathMatch (pathPortion target) then (true, pathPortion target) else (false, []) := by
  unfold getPathFromTarget
  simp only [firstToken_eq]

/-- C3: for every target, with `P` the text before the first `?` (the whole
target when there is none), `getPathFromTarget` returns `(true, P)` when `P`
is non-empty and made of word characters and `/` only, and `(false, "")` in
every other case; for `/a/b?x=1&y=2` the path is `/a/b`. -/
theorem getPathFromTarget_spec (target : Str) :
    getPathFromTarget target =
        (if target.takeWhile (fun c => c != '?') ≠ [] ∧
            ∀ c ∈ target.takeWhile (fun c => c != '?'), isPathChar c
          then (true, target.takeWhile (fun c => c != '?')) else (false, [])) ∧
      getPathFromTarget "/a/b?x=1&y=2".toList = (true, "/a/b".toList) := by
  refine ⟨?_, by decide⟩
  rw [getPathFromTarget_eq]
  change _ = if pathPortion target ≠ [] ∧ ∀ c ∈ pathPortion target, isPathChar c
    then (true, pathPortion target) else (false, [])
  by_cases h : pathMatch (pathPortion target) = true
  · rw [if_pos h, if_pos ((pathMatch_iff _).1 h)]
  · rw [if_neg h, if_neg (fun h2 => h ((pathMatch_iff _).2 h2))]


/-! ## Lemmas on `handleRequest` and the session -/

theorem handleRequest_valid (req : Request) (res : Response)
    (h : pathMatch (pathPortion req.target) = true) :
    (handleRequest req res).result = status_ok ∧
      (handleRequest req res).body = res.body ++ pathPortion req.target := by
  simp [handleRequest, getPathFromTarget_eq, h, Response.prepare_payload,
    Response.set_keep_alive]

theorem handleRequest_invalid (req : Request) (res : Response)
    (h : ¬ pathMatch (pathPortion req.target) = true) :
    (handleRequest req res).result = status_bad_request ∧
      (handleRequest req res).body = res.body ++ "Invalid target".toList := by
  simp [handleRequest, getPathFromTarget_eq, h, Response.prepare_payload,
    Response.set_keep_alive, badRequest]

theorem handleRequest_need_eof (req : Request) (res : Response) :
    (handleRequest req res).need_eof = !req.keep_alive := by
  by_cases h : pathMatch (pathPortion req.target) = true
  · simp [handleRequest, getPathFromTarget_eq, h, Response.prepare_payload,
      Response.set_keep_alive, Response.need_eof, Response.keep_alive]
    by_cases hv : res.version < 11 <;> simp [Fields.set_keep_alive, Fields.keep_alive, hv]
  · simp [handleRequest, getPathFromTarget_eq, h, Response.prepare_payload,
      Response.set_keep_alive, Response.need_eof, Response.keep_alive, badRequest]
    by_cases hv : res.version < 11 <;> simp [Fields.set_keep_alive, Fields.keep_alive, hv]

theorem fresh_inv : SessionImp.fresh.Inv := by
  simp [SessionImp.Inv, SessionImp.fresh]

theorem close_inv (s : SessionImp) (h : s.Inv) : s.close.Inv := by
  unfold SessionImp.Inv at *
  by_cases ho : s.sock_open = true <;> simpa [SessionImp.close, ho] using h

theorem step_inv (s t : SessionImp) (e : Event) (h : s.Inv) (hstep : s.step e = some t) :
    t.Inv := by
  cases e with
  | close =>
    simp only [SessionImp.step, Option.some.injEq] at hstep
    subst hstep
    exact close_inv s h
  | start =>
    by_cases hs : s.started = true
    · simp [SessionImp.step, hs] at hstep
    · simp only [Bool.not_eq_true] at hs
      obtain ⟨hp, hc⟩ := h.1 hs
      simp [SessionImp.step, hs, SessionImp.start, SessionImp.operator_call, error_code.failed, hc,
        SessionImp.yield_async_read] at hstep
      subst hstep
      have hb := h.2.2.2 (Or.inl hc)
      simp [SessionImp.Inv, hb]
  | completion error transfered parsed =>
    have hst : s.started = true := by
      by_contra hs
      simp only [Bool.not_eq_true] at hs
      simp [SessionImp.step, (h.1 hs).1] at hstep
    cases hp : s.pending with
    | none => simp [SessionImp.step, hp] at hstep
    | some op =>
      by_cases hf : error.failed = true
      · have ht : t = ({ s with pending := none } : SessionImp).close := by
          cases op <;>
            simp [SessionImp.step, hp, SessionImp.operator_call, hf] at hstep <;>
            exact hstep.symm
        subst ht
        refine close_inv _ ?_
        obtain ⟨-, -, -, h4⟩ := h
        simpa [SessionImp.Inv, hst] using h4
      · simp only [Bool.not_eq_true] at hf
        cases op with
        | read =>
          have hc := h.2.1 hp
          simp [SessionImp.step, hp, SessionImp.operator_call, hf, hc,
            SessionImp.yield_async_write] at hstep
          subst hstep
          simp [SessionImp.Inv, hst]
        | write =>
          have hc := h.2.2.1 hp
          by_cases hn : s.res_.need_eof = true
          · simp [SessionImp.step, hp, SessionImp.operator_call, hf, hc, hn] at hstep
            subst hstep
            by_cases ho : s.sock_open = true <;> simp [SessionImp.Inv, SessionImp.close, ho, hst]
          · simp [SessionImp.step, hp, SessionImp.operator_call, hf, hc, hn,
              SessionImp.yield_async_read] at hstep
            subst hstep
            simp [SessionImp.Inv, hst, Response.clear]

theorem run_inv (es : List Event) (s t : SessionImp) (h : s.Inv) (hrun : s.run es = some t) :
    t.Inv := by
  induction es generalizing s with
  | nil =>
    simp only [SessionImp.run, Option.some.injEq] at hrun
    exact hrun ▸ h
  | cons e es ih =>
    cases hs : s.step e with
    | none => simp [SessionImp.run, hs] at hrun
    | some u =>
      simp only [SessionImp.run, hs] at hrun
      exact ih u (step_inv s u e h hs) hrun

theorem reachable_inv (es : List Event) (s : SessionImp)
    (hrun : SessionImp.fresh.run es = some s) : s.Inv :=
  run_inv es _ s fresh_inv hrun

theorem step_read_success (s : SessionImp) (h : s.Inv) (hp : s.pending = some .read)
    (transfered : Nat) (req : Request) :
    s.step (.completion .success transfered req) =
      some ({ s with pending := none, req_ := req,
                     res_ := handleRequest req s.res_ } : SessionImp).yield_async_write := by
  simp [SessionImp.step, hp, SessionImp.operator_call, error_code.failed, h.2.1 hp]


theorem pathPortion_of_no_query (target : Str) (h : ∀ c ∈ target, isPathChar c) :
    pathPortion target = target := by
  unfold pathPortion
  rw [List.takeWhile_eq_self_iff]
  intro c hc
  have hpc := h c hc
  have hne : c ≠ '?' := by
    rintro rfl
    revert hpc
    decide
  simpa using hne

/-! ## The claims on `handleRequest` -/

/-- C1: for every request that a session handles, the first or a later one
on a persistent connection (a read completing without error in any state a
fresh session can reach), with a target `T` of one or more word characters
and `/` (so without `?`), the response built by `handleRequest` has status
200 OK and a body that is exactly `T`. -/
theorem handleRequest_echoes_target (es : List Event) (s : SessionImp) (transfered : Nat)
    (req : Request) (hrun : SessionImp.fresh.run es = some s)
    (hread : s.pending = some .read)
    (hne : req.target ≠ []) (hchars : ∀ c ∈ req.target, isPathChar c) :
    ∃ t, s.step (.completion .success transfered req) = some t ∧
      t.res_ = handleRequest req s.res_ ∧
      t.res_.result = status_ok ∧ t.res_.body = req.target := by
  have hinv := reachable_inv es s hrun
  have hbody : s.res_.body = [] := hinv.2.2.2 (Or.inr (hinv.2.1 hread))
  have hpp := pathPortion_of_no_query req.target hchars
  have hm : pathMatch (pathPortion req.target) = true := by
    rw [hpp]; exact (pathMatch_iff _).2 ⟨hne, hchars⟩
  obtain ⟨h1, h2⟩ := handleRequest_valid req s.res_ hm
  refine ⟨_, step_read_success s hinv hread transfered req, ?_, ?_, ?_⟩
  · simp [SessionImp.yield_async_write]
  · simpa [SessionImp.yield_async_write] using h1
  · simpa [SessionImp.yield_async_write, hbody, hpp] using h2

/-- Witness of C1: the second request of a persistent connection, `/c/d`
after `/a/b`, is answered with 200 and the body `/c/d`. -/
theorem handleRequest_echoes_target_witness :
    ∃ t, (({ coro := .at_read, pending := some .read, started := true,
             req_ := ({ target := "/a/b".toList } : Request).clear,
             effects := [.async_read, .async_write, .async_read] } : SessionImp).step
          (.completion .success 40 { target := "/c/d".toList })) = some t ∧
      t.res_ = handleRequest { target := "/c/d".toList }
        ({ coro := .at_read, pending := some .read, started := true,
           req_ := ({ target := "/a/b".toList } : Request).clear,
           effects := [.async_read, .async_write, .async_read] } : SessionImp).res_ ∧
      t.res_.result = status_ok ∧ t.res_.body = "/c/d".toList :=
  handleRequest_echoes_target
    [.start, .completion .success 40 { target := "/a/b".toList }, .completion .success 90 {}]
    _ 40 { target := "/c/d".toList } (by decide) (by decide) (by decide) (by decide)


/-- C2: for every request that a session handles whose target has, in the
text before its first `?`, a character that is no word character and no `/`,
the response built by `handleRequest` has status 400 Bad Request and the body
`Invalid target`; the text after the `?` plays no part, so two targets with
the same path portion get the same status and body. -/
theorem handleRequest_invalid_target (es : List Event) (s : SessionImp) (transfered : Nat)
    (req : Request) (hrun : SessionImp.fresh.run es = some s)
    (hread : s.pending = some .read)
    (hbad : ∃ c ∈ req.target.takeWhile (fun c => c != '?'), ¬ isPathChar c) :
    ∃ t, s.step (.completion .success transfered req) = some t ∧
      t.res_ = handleRequest req s.res_ ∧
      t.res_.result = status_bad_request ∧ t.res_.body = "Invalid target".toList := by
  have hinv := reachable_inv es s hrun
  have hbody : s.res_.body = [] := hinv.2.2.2 (Or.inr (hinv.2.1 hread))
  have hm : ¬ pathMatch (pathPortion req.target) = true := by
    intro hm
    obtain ⟨c, hc, hnot⟩ := hbad
    exact hnot (((pathMatch_iff _).1 hm).2 c hc)
  obtain ⟨h1, h2⟩ := handleRequest_invalid req s.res_ hm
  refine ⟨_, step_read_success s hinv hread transfered req, ?_, ?_, ?_⟩
  · simp [SessionImp.yield_async_write]
  · simpa [SessionImp.yield_async_write] using h1
  · simpa [SessionImp.yield_async_write, hbody] using h2

/-- Witness of C2: the first request of a session with the target
`/a b?x=1` is answered with 400 and `Invalid target`. -/
theorem handleRequest_invalid_target_witness :
    ∃ t, (({ coro := .at_read, pending := some .read, started := true,
             effects := [.async_read] } : SessionImp).step
          (.completion .success 40 { target := "/a b?x=1".toList })) = some t ∧
      t.res_ = handleRequest { target := "/a b?x=1".toList }
        ({ coro := .at_read, pending := some .read, started := true,
           effects := [.async_read] } : SessionImp).res_ ∧
      t.res_.result = status_bad_request ∧ t.res_.body = "Invalid target".toList :=
  handleRequest_invalid_target [.start] _ 40 { target := "/a b?x=1".toList }
    (by decide) (by decide) ⟨' ', by decide, by decide⟩

/-- C7, as the code has it: `handleRequest` never calls `getArgsFromTarget`.
For every request that a session handles whose target has a valid path
portion (non-empty, word characters and `/` only), whatever follows the first
`?`, a malformed pair list included, the response has status 200 OK and the
path portion as its body. -/
theorem handleRequest_ignores_query (es : List Event) (s : SessionImp) (transfered : Nat)
    (req : Request) (hrun : SessionImp.fresh.run es = some s)
    (hread : s.pending = some .read)
    (hne : req.target.takeWhile (fun c => c != '?') ≠ [])
    (hchars : ∀ c ∈ req.target.takeWhile (fun c => c != '?'), isPathChar c) :
    ∃ t, s.step (.completion .success transfered req) = some t ∧
      t.res_ = handleRequest req s.res_ ∧
      t.res_.result = status_ok ∧
      t.res_.body = req.target.takeWhile (fun c => c != '?') := by
  have hinv := reachable_inv es s hrun
  have hbody : s.res_.body = [] := hinv.2.2.2 (Or.inr (hinv.2.1 hread))
  have hm : pathMatch (pathPortion req.target) = true := (pathMatch_iff _).2 ⟨hne, hchars⟩
  obtain ⟨h1, h2⟩ := handleRequest_valid req s.res_ hm
  refine ⟨_, step_read_success s hinv hread transfered req, ?_, ?_, ?_⟩
  · simp [SessionImp.yield_async_write]
  · simpa [SessionImp.yield_async_write] using h1
  · simpa [SessionImp.yield_async_write, hbody, pathPortion] using h2

/-- Witness of C7 as amended: `/a?x=1=2`, whose pair list
`getArgsFromTarget` rejects, is answered with 200 and the body `/a`. -/
theorem handleRequest_ignores_query_witness :
    ∃ t, (({ coro := .at_read, pending := some .read, started := true,
             effects := [.async_read] } : SessionImp).step
          (.completion .success 40 { target := "/a?x=1=2".toList })) = some t ∧
      t.res_ = handleRequest { target := "/a?x=1=2".toList }
        ({ coro := .at_read, pending := some .read, started := true,
           effects := [.async_read] } : SessionImp).res_ ∧
      t.res_.result = status_ok ∧
      t.res_.body = ("/a?x=1=2".toList).takeWhile (fun c => c != '?') :=
  handleRequest_ignores_query [.start] _ 40 { target := "/a?x=1=2".toList }
    (by decide) (by decide) (by decide) (by decide)

/-- C7 as stated fails: for `/a?x=1=2` the path portion `/a` is valid and
`getArgsFromTarget` returns false, yet the response of `handleRequest` has
status 200 OK, not 400 Bad Request. -/
theorem handleRequest_malformed_query_not_rejected :
    getPathFromTarget "/a?x=1=2".toList = (true, "/a".toList) ∧
      getArgsFromTarget "/a?x=1=2".toList = .ok (false, []) ∧
      (handleRequest { target := "/a?x=1=2".toList } {}).result = status_ok ∧
      (handleRequest { target := "/a?x=1=2".toList } {}).result ≠ status_bad_request ∧
      (handleRequest { target := "/a?x=1=2".toList } {}).body = "/a".toList :=
  ⟨by decide, by rfl, by decide, by decide, by decide⟩


/-! ## The closure notification -/

theorem close_atCloseCount (s : SessionImp) : s.close.atCloseCount = s.atCloseCount + 1 := by
  by_cases ho : s.sock_open = true <;>
    simp [SessionImp.close, SessionImp.atCloseCount, ho, List.count_append, List.count_cons]

theorem close_issued (s : SessionImp) : s.close.issued = s.issued := by
  by_cases ho : s.sock_open = true <;>
    simp [SessionImp.close, SessionImp.issued, ho, List.count_append, List.count_cons]

theorem close_sock_open (s : SessionImp) : s.close.sock_open = false := by
  by_cases ho : s.sock_open = true <;> simp [SessionImp.close, ho]

theorem close_fields (s : SessionImp) :
    s.close.coro = s.coro ∧ s.close.pending = s.pending ∧ s.close.started = s.started := by
  by_cases ho : s.sock_open = true <;> simp [SessionImp.close, ho]

theorem close_sock_close_count (s : SessionImp) :
    s.close.effects.count Effect.sock_close =
      s.effects.count Effect.sock_close + (if s.sock_open then 1 else 0) := by
  by_cases ho : s.sock_open = true <;>
    simp [SessionImp.close, ho, List.count_append, List.count_cons]

theorem step_closeInv (s t : SessionImp) (e : Event) (n : Nat) (h : s.Inv)
    (hc : s.CloseInv n) (hstep : s.step e = some t) :
    t.CloseInv (n + externalCloses [e]) := by
  obtain ⟨hc1, hc2, hc3⟩ := hc
  cases e with
  | close =>
    simp only [SessionImp.step, Option.some.injEq] at hstep
    subst hstep
    have hn : externalCloses [Event.close] = 1 := by decide
    obtain ⟨-, hp, hs⟩ := close_fields s
    refine ⟨?_, ?_, ?_⟩
    · rw [close_atCloseCount, hn]; omega
    · rw [close_atCloseCount, hn, hp, hs]
      intro hh
      have := hc2 hh
      omega
    · rw [close_sock_open, close_sock_close_count, hc3]
      by_cases ho : s.sock_open = true <;> simp [ho]
  | start =>
    have hn : externalCloses [Event.start] = 0 := by decide
    by_cases hs : s.started = true
    · simp [SessionImp.step, hs] at hstep
    · simp only [Bool.not_eq_true] at hs
      obtain ⟨hp, hco⟩ := h.1 hs
      simp [SessionImp.step, hs, SessionImp.start, SessionImp.operator_call, error_code.failed, hco,
        SessionImp.yield_async_read] at hstep
      subst hstep
      have hle := hc2 (Or.inr hs)
      simp only [SessionImp.atCloseCount] at hle hc1
      simp [SessionImp.CloseInv, SessionImp.atCloseCount, hn, List.count_append,
        List.count_cons, hc3]
      omega
  | completion error transfered parsed =>
    have hn : externalCloses [Event.completion error transfered parsed] = 0 := by
      simp [externalCloses, List.count_cons]
    rw [hn, Nat.add_zero]
    have hst : s.started = true := by
      by_contra hs
      simp only [Bool.not_eq_true] at hs
      simp [SessionImp.step, (h.1 hs).1] at hstep
    cases hp : s.pending with
    | none => simp [SessionImp.step, hp] at hstep
    | some op =>
      have hle : s.atCloseCount ≤ n := hc2 (Or.inl (by simp [hp]))
      by_cases hf : error.failed = true
      · have ht : t = ({ s with pending := none } : SessionImp).close := by
          cases op <;>
            simp [SessionImp.step, hp, SessionImp.operator_call, hf] at hstep <;>
            exact hstep.symm
        subst ht
        obtain ⟨-, hp2, hs2⟩ := close_fields ({ s with pending := none } : SessionImp)
        refine ⟨?_, ?_, ?_⟩
        · rw [close_atCloseCount]
          simp only [SessionImp.atCloseCount] at hle ⊢
          omega
        · rw [hp2, hs2]
          simp [hst]
        · rw [close_sock_open, close_sock_close_count]
          simp only [hc3]
          by_cases ho : s.sock_open = true <;> simp [ho]
      · simp only [Bool.not_eq_true] at hf
        simp only [SessionImp.atCloseCount] at hle
        cases op with
        | read =>
          have hco := h.2.1 hp
          simp [SessionImp.step, hp, SessionImp.operator_call, hf, hco,
            SessionImp.yield_async_write] at hstep
          subst hstep
          simp [SessionImp.CloseInv, SessionImp.atCloseCount, List.count_append,
            List.count_cons, hc3]
          omega
        | write =>
          have hco := h.2.2.1 hp
          by_cases hne : s.res_.need_eof = true
          · simp [SessionImp.step, hp, SessionImp.operator_call, hf, hco, hne] at hstep
            subst hstep
            by_cases ho : s.sock_open = true <;>
              simp [SessionImp.CloseInv, SessionImp.close, SessionImp.atCloseCount, ho, hst,
                List.count_append, List.count_cons, hc3] <;> omega
          · simp [SessionImp.step, hp, SessionImp.operator_call, hf, hco, hne,
              SessionImp.yield_async_read] at hstep
            subst hstep
            simp [SessionImp.CloseInv, SessionImp.atCloseCount, List.count_append,
              List.count_cons, hc3]
            omega

theorem run_closeInv (es : List Event) (s t : SessionImp) (n : Nat) (h : s.Inv)
    (hc : s.CloseInv n) (hrun : s.run es = some t) :
    t.CloseInv (n + externalCloses es) := by
  induction es generalizing s n with
  | nil =>
    simp only [SessionImp.run, Option.some.injEq] at hrun
    subst hrun
    simpa [externalCloses] using hc
  | cons e es ih =>
    cases hs : s.step e with
    | none => simp [SessionImp.run, hs] at hrun
    | some u =>
      simp only [SessionImp.run, hs] at hrun
      have hu := ih u (n + externalCloses [e]) (step_inv s u e h hs)
        (step_closeInv s u e n h hc hs) hrun
      have hcount : externalCloses (e :: es) = externalCloses [e] + externalCloses es := by
        simp only [externalCloses, List.count_cons, List.count_nil]
        omega
      rw [hcount, ← Nat.add_assoc]
      exact hu

/-- C6, as the code has it: `close()` emits `atClose_` on every call, only
the teardown of the socket is guarded by `is_open`. Over every sequence of
events of a fresh session the completion handling emits the notification at
most once and every external `close()` call emits it once more, so there are
at most one plus the number of external calls (at most one when `close()` is
never called from outside); the socket itself is closed at most once. -/
theorem atClose_at_most_once_per_close (es : List Event) (s : SessionImp)
    (hrun : SessionImp.fresh.run es = some s) :
    s.atCloseCount ≤ 1 + externalCloses es ∧
      (externalCloses es = 0 → s.atCloseCount ≤ 1) ∧
      s.effects.count Effect.sock_close ≤ 1 := by
  have hc0 : SessionImp.fresh.CloseInv 0 := by
    simp [SessionImp.CloseInv, SessionImp.fresh, SessionImp.atCloseCount]
  obtain ⟨h1, -, h3⟩ := run_closeInv es _ s 0 fresh_inv hc0 hrun
  refine ⟨by omega, fun h0 => by omega, ?_⟩
  rw [h3]
  by_cases ho : s.sock_open = true <;> simp [ho]

/-- Witness of C6 as amended: `start`, one external `close()`, then the
cancelled read's handler: two emissions, one teardown. -/
theorem atClose_at_most_once_per_close_witness :
    ({ coro := .at_read, sock_open := false, started := true,
       effects := [.async_read, .cancel, .shutdown, .sock_close, .atClose, .atClose] } :
        SessionImp).atCloseCount
        ≤ 1 + externalCloses [.start, .close, .completion .operation_aborted 0 {}] ∧
      (externalCloses [.start, .close, .completion .operation_aborted 0 {}] = 0 →
        ({ coro := .at_read, sock_open := false, started := true,
           effects := [.async_read, .cancel, .shutdown, .sock_close, .atClose, .atClose] } :
            SessionImp).atCloseCount ≤ 1) ∧
      ({ coro := .at_read, sock_open := false, started := true,
         effects := [.async_read, .cancel, .shutdown, .sock_close, .atClose, .atClose] } :
          SessionImp).effects.count Effect.sock_close ≤ 1 :=
  atClose_at_most_once_per_close [.start, .close, .completion .operation_aborted 0 {}] _
    (by decide)

/-- C6 as stated fails: after `start`, an external `close()` and the
cancelled read's handler running with `operation_aborted` emit `atClose_`
twice, and so do two external `close()` calls. -/
theorem atClose_emitted_twice :
    (SessionImp.fresh.run [.start, .close, .completion .operation_aborted 0 {}]).map
        SessionImp.atCloseCount = some 2 ∧
      (SessionImp.fresh.run [.start, .close, .close]).map SessionImp.atCloseCount = some 2 ∧
      SessionImp.fresh.close.close.atCloseCount = 2 := by
  decide


/-! ## Completions -/

theorem run_after_close (es : List Event) (t u : SessionImp) (hp : t.pending = none)
    (hs : t.started = true) (hrun : t.run es = some u) :
    u.issued = t.issued ∧ u.pending = none ∧ u.coro = t.coro ∧ u.started = true := by
  induction es generalizing t with
  | nil =>
    simp only [SessionImp.run, Option.some.injEq] at hrun
    subst hrun
    exact ⟨rfl, hp, rfl, hs⟩
  | cons e es ih =>
    cases e with
    | start => simp [SessionImp.run, SessionImp.step, hs] at hrun
    | completion error transfered parsed => simp [SessionImp.run, SessionImp.step, hp] at hrun
    | close =>
      simp only [SessionImp.run, SessionImp.step] at hrun
      obtain ⟨hc, hp2, hs2⟩ := close_fields t
      obtain ⟨h1, h2, h3, h4⟩ := ih t.close (hp2.trans hp) (hs2.trans hs) hrun
      exact ⟨h1.trans (close_issued t), h2, h3.trans hc, h4⟩

/-- C9: in every state a fresh session can reach, a completion that carries
an error (end-of-stream or any other, of the read or of the write) runs
`close()`: the socket is closed, `atClose_` is emitted once, no read or write
is issued and nothing is outstanding; and whatever events follow, no read or
write is issued ever after and the coroutine stays where it was. -/
theorem error_completion_closes (es : List Event) (s : SessionImp) (op : AsyncOp)
    (error : error_code) (transfered : Nat) (parsed : Request)
    (hrun : SessionImp.fresh.run es = some s) (hp : s.pending = some op)
    (herr : error.failed = true) :
    ∃ t, s.step (.completion error transfered parsed) = some t ∧
      t = ({ s with pending := none } : SessionImp).close ∧
      t.sock_open = false ∧ t.atCloseCount = s.atCloseCount + 1 ∧
      t.issued = s.issued ∧ t.pending = none ∧
      ∀ (later : List Event) (u : SessionImp), t.run later = some u →
        u.issued = s.issued ∧ u.pending = none ∧ u.coro = s.coro := by
  have hinv := reachable_inv es s hrun
  have hst : s.started = true := by
    by_contra hs
    simp only [Bool.not_eq_true] at hs
    simp [(hinv.1 hs).1] at hp
  have hstep : s.step (.completion error transfered parsed) =
      some ({ s with pending := none } : SessionImp).close := by
    cases op <;> simp [SessionImp.step, hp, SessionImp.operator_call, herr]
  obtain ⟨hc, hp2, hs2⟩ := close_fields ({ s with pending := none } : SessionImp)
  refine ⟨_, hstep, rfl, close_sock_open _, ?_, ?_, hp2, ?_⟩
  · rw [close_atCloseCount]; rfl
  · rw [close_issued]; rfl
  · intro later u hu
    obtain ⟨h1, h2, h3, -⟩ := run_after_close later _ u hp2 (hs2.trans hst) hu
    refine ⟨?_, h2, ?_⟩
    · rw [h1, close_issued]; rfl
    · rw [h3, hc]

/-- Witness of C9: the write of the first response fails with a broken
pipe. -/
theorem error_completion_closes_witness :
    ∃ t, (({ coro := .at_write, pending := some .write, started := true,
             req_ := { target := "/a".toList },
             res_ := handleRequest { target := "/a".toList } {},
             effects := [.async_read, .async_write] } : SessionImp).step
          (.completion (.other 32) 0 {})) = some t ∧
      t = ({ ({ coro := .at_write, pending := some .write, started := true,
                req_ := { target := "/a".toList },
                res_ := handleRequest { target := "/a".toList } {},
                effects := [.async_read, .async_write] } : SessionImp)
              with pending := none } : SessionImp).close ∧
      t.sock_open = false ∧ t.atCloseCount = 0 + 1 ∧
      t.issued = 2 ∧ t.pending = none ∧
      ∀ (later : List Event) (u : SessionImp), t.run later = some u →
        u.issued = 2 ∧ u.pending = none ∧ u.coro = .at_write :=
  error_completion_closes [.start, .completion .success 30 { target := "/a".toList }]
    _ .write (.other 32) 0 {} (by decide) (by decide) (by decide)

theorem close_effects (s : SessionImp) :
    s.close.effects =
      s.effects ++ (if s.sock_open then [Effect.cancel, Effect.shutdown, Effect.sock_close]
        else []) ++ [Effect.atClose] := by
  by_cases ho : s.sock_open = true <;> simp [SessionImp.close, ho]

theorem step_write_success (t : SessionImp) (hp : t.pending = some .write)
    (hc : t.coro = .at_write) (m : Nat) (parsed : Request) :
    t.step (.completion .success m parsed) =
      some (if t.res_.need_eof then
          { ({ t with pending := none } : SessionImp).close with coro := .complete }
        else
          ({ t with pending := none, req_ := t.req_.clear, res_ := t.res_.clear } :
            SessionImp).yield_async_read) := by
  by_cases hn : t.res_.need_eof = true <;>
    simp [SessionImp.step, hp, SessionImp.operator_call, error_code.failed, hc, hn]

/-- C8: for every request that a session handles, once the response is
written without error the session closes (`close()` runs, the coroutine is
complete, no read is issued) exactly when the request's `keep_alive()` is
false; otherwise `req_` and `res_` are cleared (no header field and an empty
body are left in either, the written response's fields and body are gone) and
exactly one new read is issued. The response that `handleRequest` built has
`need_eof()` equal to the negation of the request's `keep_alive()`, for the
200 and for the 400 response. -/
theorem written_response_keep_alive (es : List Event) (s : SessionImp) (req parsed : Request)
    (n m : Nat) (hrun : SessionImp.fresh.run es = some s) (hread : s.pending = some .read) :
    ∃ t1 t2, s.step (.completion .success n req) = some t1 ∧
      t1.step (.completion .success m parsed) = some t2 ∧
      t1.res_ = handleRequest req s.res_ ∧
      t1.res_.need_eof = !req.keep_alive ∧
      (t2.coro = .complete ↔ req.keep_alive = false) ∧
      (req.keep_alive = false →
        t2.coro = .complete ∧ t2.pending = none ∧ t2.sock_open = false ∧
        t2.atCloseCount = t1.atCloseCount + 1 ∧ t2.issued = t1.issued) ∧
      (req.keep_alive = true →
        t2.coro = .at_read ∧ t2.pending = some .read ∧
        t2.req_ = req.clear ∧ t2.res_ = t1.res_.clear ∧
        t2.req_ =
          { version := req.version, target := req.target,
            fields := { server := none, content_type := none, content_length := none,
                        chunked := false, connection_close := false,
                        connection_keep_alive := false },
            body := [] } ∧
        t2.res_ =
          { version := s.res_.version, result := (handleRequest req s.res_).result,
            fields := { server := none, content_type := none, content_length := none,
                        chunked := false, connection_close := false,
                        connection_keep_alive := false },
            body := [] } ∧
        t1.res_.fields.server = some SERVER_NAME ∧
        t1.res_.fields.content_length = some t1.res_.body.length ∧
        t2.effects = t1.effects ++ [Effect.async_read] ∧
        t2.atCloseCount = t1.atCloseCount) := by
  have hinv := reachable_inv es s hrun
  have h1 := step_read_success s hinv hread n req
  have hne := handleRequest_need_eof req s.res_
  have h2 := step_write_success
    (({ s with pending := none, req_ := req, res_ := handleRequest req s.res_ } :
      SessionImp).yield_async_write) rfl rfl m parsed
  refine ⟨_, _, h1, h2, rfl, hne, ?_⟩
  have hne1 : (({ s with pending := none, req_ := req, res_ := handleRequest req s.res_ } :
      SessionImp).yield_async_write).res_.need_eof = !req.keep_alive := hne
  rw [hne1]
  have hver : (handleRequest req s.res_).version = s.res_.version := by
    by_cases h : pathMatch (pathPortion req.target) = true <;>
      simp [handleRequest, getPathFromTarget_eq, h, Response.prepare_payload,
        Response.set_keep_alive, badRequest]
  have hserver : (handleRequest req s.res_).fields.server = some SERVER_NAME := by
    by_cases h : pathMatch (pathPortion req.target) = true <;>
      simp [handleRequest, getPathFromTarget_eq, h, Response.prepare_payload,
        Response.set_keep_alive, badRequest, Fields.set_keep_alive] <;>
      by_cases hv : s.res_.version < 11 <;> simp [hv]
  have hlen : (handleRequest req s.res_).fields.content_length =
      some (handleRequest req s.res_).body.length := by
    by_cases h : pathMatch (pathPortion req.target) = true <;>
      simp [handleRequest, getPathFromTarget_eq, h, Response.prepare_payload,
        Response.set_keep_alive, badRequest]
  by_cases hk : req.keep_alive = true
  · simp [hk, SessionImp.yield_async_read, SessionImp.yield_async_write,
      SessionImp.atCloseCount, List.count_append, List.count_cons, hserver, hlen]
    simp [Request.clear, Response.clear, hver]
  · simp only [Bool.not_eq_true] at hk
    simp [hk, close_sock_open, close_fields, close_atCloseCount, close_issued,
      SessionImp.atCloseCount, SessionImp.issued, close_effects,
      SessionImp.yield_async_write, List.count_append, List.count_cons]
    by_cases ho : s.sock_open = true <;> simp [ho, List.count_cons]

/-- Witness of C8, both branches on the first request of a session. With
`Connection: close` the session closes after the (400) response is written.
Without it the written response carried the body `/a/b` and three fields,
and after the write `res_` and `req_` hold no field and no body, and one read
is issued. -/
theorem written_response_keep_alive_witness :
    (∃ t1 t2, ({ coro := .at_read, pending := some .read, started := true,
                 effects := [.async_read] } : SessionImp).step
          (.completion .success 30
            { target := "/a b".toList, fields := { connection_close := true } }) = some t1 ∧
      t1.step (.completion .success 60 {}) = some t2 ∧
      t1.res_ = handleRequest
        { target := "/a b".toList, fields := { connection_close := true } } {} ∧
      t1.res_.need_eof = true ∧ t2.coro = .complete ∧ t2.pending = none ∧
      t2.sock_open = false ∧ t2.atCloseCount = t1.atCloseCount + 1 ∧
      t2.issued = t1.issued) ∧
    (∃ t1 t2, ({ coro := .at_read, pending := some .read, started := true,
                 effects := [.async_read] } : SessionImp).step
          (.completion .success 30
            { target := "/a/b".toList, body := "xyz".toList }) = some t1 ∧
      t1.step (.completion .success 60 {}) = some t2 ∧
      t1.res_.body = "/a/b".toList ∧
      t1.res_.fields.server = some SERVER_NAME ∧
      t1.res_.fields.content_length = some 4 ∧
      t2.coro = .at_read ∧ t2.pending = some .read ∧
      t2.req_ = { version := 11, target := "/a/b".toList, fields := {}, body := [] } ∧
      t2.res_ = { version := 11, result := 200, fields := {}, body := [] } ∧
      t2.effects = [.async_read, .async_write, .async_read]) := by
  constructor
  · obtain ⟨t1, t2, h1, h2, h3, h4, -, hclose, -⟩ :=
      written_response_keep_alive [.start]
        ({ coro := .at_read, pending := some .read, started := true,
           effects := [.async_read] } : SessionImp)
        { target := "/a b".toList, fields := { connection_close := true } } {} 30 60
        (by decide) (by decide)
    exact ⟨t1, t2, h1, h2, h3, h4, hclose (by decide)⟩
  · obtain ⟨t1, t2, h1, h2, h3, -, -, -, hkeep⟩ :=
      written_response_keep_alive [.start]
        ({ coro := .at_read, pending := some .read, started := true,
           effects := [.async_read] } : SessionImp)
        { target := "/a/b".toList, body := "xyz".toList } {} 30 60
        (by decide) (by decide)
    obtain ⟨hc, hp, -, -, hreq, hres, hsrv, hlen, heff, -⟩ := hkeep (by decide)
    have ht1 : t1.effects = [.async_read, .async_write] := by
      have h := Option.some.inj (h1.symm.trans (step_read_success _
        (reachable_inv [.start] _ (by decide)) rfl 30 _))
      rw [h]; rfl
    have hbody : t1.res_.body = "/a/b".toList := by rw [h3]; decide
    refine ⟨t1, t2, h1, h2, hbody, hsrv, ?_, hc, hp, hreq, ?_, ?_⟩
    · rw [hlen, hbody]; rfl
    · rw [hres]; decide
    · rw [heff, ht1]; rfl

/-! ## The argument map -/

theorem tokenLoop_append (sep : Char) (x rest cur : Str) (matched : Bool)
    (hx : sep ∉ x) :
    tokenLoop sep cur matched (x ++ rest) = tokenLoop sep (cur ++ x) matched rest := by
  induction x generalizing cur with
  | nil => simp
  | cons c x ih =>
    have hc : c ≠ sep := fun h => hx (h ▸ List.mem_cons_self c x)
    have hx2 : sep ∉ x := fun h => hx (List.mem_cons_of_mem c h)
    simp [tokenLoop, hc, ih _ hx2]

theorem tokenLoop_intercalate (sep : Char) (items : List Str) (matched : Bool)
    (hne : items ≠ []) (hitems : ∀ x ∈ items, x ≠ [] ∧ sep ∉ x) :
    tokenLoop sep [] matched ([sep].intercalate items) = items := by
  induction items generalizing matched with
  | nil => exact absurd rfl hne
  | cons x more ih =>
    obtain ⟨hx1, hx2⟩ := hitems x (List.mem_cons_self x more)
    cases more with
    | nil =>
      have h := tokenLoop_append sep x [] [] matched hx2
      simp only [List.append_nil, List.nil_append] at h
      simp [List.intercalate, h, tokenLoop, hx1]
    | cons y more =>
      have hrest := ih true (by simp) (fun z hz => hitems z (List.mem_cons_of_mem x hz))
      have h := tokenLoop_append sep x (sep :: [sep].intercalate (y :: more)) [] matched hx2
      have hshape : [sep].intercalate (x :: y :: more) =
          x ++ sep :: [sep].intercalate (y :: more) := by
        simp [List.intercalate]
      rw [hshape, h]
      simp [tokenLoop, hrest]

theorem regexTokens_keyVal (k v : Str) (hk : '=' ∉ k) (hv : '=' ∉ v) (hvne : v ≠ []) :
    regexTokens '=' (k ++ '=' :: v) = [k, v] := by
  unfold regexTokens
  rw [tokenLoop_append '=' k _ [] false hk]
  have h := tokenLoop_append '=' v [] [] true hv
  simp only [List.append_nil, List.nil_append] at h
  simp [tokenLoop, h, hvne]

theorem scanEscapes_no_percent (s : Str) (pos : Nat) (h : '%' ∉ s) :
    scanEscapes pos .idle s = [] := by
  induction s generalizing pos with
  | nil => simp [scanEscapes]
  | cons c s ih =>
    have hc : c ≠ '%' := fun hp => h (hp ▸ List.mem_cons_self c s)
    have hs : '%' ∉ s := fun hp => h (List.mem_cons_of_mem c hp)
    simp [scanEscapes, hc, ih _ hs]

theorem decodeOut_no_percent (s : Str) (h : '%' ∉ s) : decodeOut s = .ok s := by
  simp [decodeOut, scanEscapes_no_percent s 0 h, decodeLoop]

theorem find_append (P rest : Str) (hP : '?' ∉ P) :
    find '?' (P ++ '?' :: rest) = some P.length := by
  induction P with
  | nil => simp [find]
  | cons c P ih =>
    have hc : c ≠ '?' := fun h => hP (h ▸ List.mem_cons_self c P)
    have hP2 : '?' ∉ P := fun h => hP (List.mem_cons_of_mem c h)
    simp [find, hc, ih hP2]

theorem find_none (target : Str) (h : '?' ∉ target) : find '?' target = none := by
  induction target with
  | nil => simp [find]
  | cons c t ih =>
    have hc : c ≠ '?' := fun hp => h (hp ▸ List.mem_cons_self c t)
    have ht : '?' ∉ t := fun hp => h (List.mem_cons_of_mem c hp)
    simp [find, hc, ih ht]

theorem emplace_perm (m : ArgMap) (k v : Str) : (m.emplace k v).Perm ((k, v) :: m) := by
  induction m with
  | nil => simp [ArgMap.emplace]
  | cons p more ih =>
    obtain ⟨k0, v0⟩ := p
    by_cases hlt : strLess k k0 = true
    · simp [ArgMap.emplace, hlt]
    · simp only [ArgMap.emplace, hlt]
      exact ((List.Perm.cons _ ih).trans (List.Perm.swap _ _ _))

theorem argsLoop_pairs (pairs : List (Str × Str)) (argMap : ArgMap)
    (hp : ∀ p ∈ pairs, plainPair p) :
    ∃ m, argsLoop (pairs.map (fun p => p.1 ++ '=' :: p.2)) argMap = .ok (true, m) ∧
      m.Perm (argMap ++ pairs) := by
  induction pairs generalizing argMap with
  | nil => exact ⟨argMap, by simp [argsLoop], by simp⟩
  | cons p more ih =>
    obtain ⟨hk1, hv1, hk, hv⟩ := hp p (List.mem_cons_self p more)
    have hkeq : '=' ∉ p.1 := fun h => (hk _ h).2.1 rfl
    have hveq : '=' ∉ p.2 := fun h => (hv _ h).2.1 rfl
    have hkpc : '%' ∉ p.1 := fun h => (hk _ h).2.2.1 rfl
    have hvpc : '%' ∉ p.2 := fun h => (hv _ h).2.2.1 rfl
    obtain ⟨m, hm, hperm⟩ := ih (argMap.emplace p.1 p.2)
      (fun q hq => hp q (List.mem_cons_of_mem p hq))
    refine ⟨m, ?_, ?_⟩
    · simp only [List.map_cons, argsLoop, regexTokens_keyVal p.1 p.2 hkeq hveq hv1]
      simp [decodeKeyVal, decodeOut_no_percent, hkpc, hvpc, hm]
    · refine hperm.trans ?_
      have h1 := emplace_perm argMap p.1 p.2
      have h2 : (argMap.emplace p.1 p.2 ++ more).Perm (((p.1, p.2) :: argMap) ++ more) :=
        List.Perm.append_right more h1
      refine h2.trans ?_
      simpa using (@List.perm_middle _ p argMap more).symm


/-- C4: for every target `P?k1=v1&...&kn=vn` with `n ≥ 1`, `P` free of `?`
and every key and value non-empty and free of `&`, `=`, `%`, `?`,
`getArgsFromTarget` returns true with a map that holds exactly the pairs
`(k1,v1),...,(kn,vn)`, in some order; and for every target without `?` it
returns true with an empty map. -/
theorem getArgsFromTarget_pairs (P : Str) (pairs : List (Str × Str)) (plain : Str)
    (hP : '?' ∉ P) (hn : pairs ≠ []) (hp : ∀ p ∈ pairs, plainPair p)
    (hplain : '?' ∉ plain) :
    (∃ m, getArgsFromTarget
          (P ++ '?' :: ['&'].intercalate (pairs.map (fun p => p.1 ++ '=' :: p.2))) =
        .ok (true, m) ∧ m.Perm pairs) ∧
      getArgsFromTarget plain = .ok (true, []) := by
  constructor
  · have hitems : ∀ x ∈ pairs.map (fun p => p.1 ++ '=' :: p.2), x ≠ [] ∧ '&' ∉ x := by
      intro x hx
      obtain ⟨p, hpm, rfl⟩ := List.mem_map.1 hx
      obtain ⟨-, -, hk, hv⟩ := hp p hpm
      refine ⟨by simp, ?_⟩
      intro hmem
      rcases List.mem_append.1 hmem with h | h
      · exact (hk _ h).1 rfl
      · rcases List.mem_cons.1 h with h | h
        · exact absurd h (by decide)
        · exact (hv _ h).1 rfl
    have htok := tokenLoop_intercalate '&' (pairs.map (fun p => p.1 ++ '=' :: p.2)) false
      (by simpa using hn) hitems
    obtain ⟨m, hm, hperm⟩ := argsLoop_pairs pairs [] hp
    refine ⟨m, ?_, by simpa using hperm⟩
    simp only [getArgsFromTarget, find_append P _ hP, regexTokens]
    have hdrop : List.drop (P.length + 1)
        (P ++ '?' :: ['&'].intercalate (pairs.map (fun p => p.1 ++ '=' :: p.2))) =
        ['&'].intercalate (pairs.map (fun p => p.1 ++ '=' :: p.2)) := by
      rw [List.drop_append_eq_append_drop]
      simp
    rw [hdrop, htok, hm]
  · simp [getArgsFromTarget, find_none plain hplain]

/-- Witness of C4: `/a/b?x=1&y=2` gives the map with `x` to `1` and `y` to
`2`, and `/a/b` gives the empty map. -/
theorem getArgsFromTarget_pairs_witness :
    (∃ m, getArgsFromTarget "/a/b?x=1&y=2".toList = .ok (true, m) ∧
        m.Perm [("x".toList, "1".toList), ("y".toList, "2".toList)]) ∧
      getArgsFromTarget "/a/b".toList = .ok (true, []) :=
  getArgsFromTarget_pairs "/a/b".toList [("x".toList, "1".toList), ("y".toList, "2".toList)]
    "/a/b".toList (by decide) (by decide) (by decide) (by decide)

/-- C5 fails on the code: for `/a?bad=%41` the decoding loop does build
`A` in its local `out`, but `out` is never stored, and the map holds the
value `%41` for the key `bad`. -/
theorem getArgsFromTarget_escape_not_decoded :
    decodeOut "%41".toList = .ok "A".toList ∧
      getArgsFromTarget "/a?bad=%41".toList =
        .ok (true, [("bad".toList, "%41".toList)]) :=
  ⟨by rfl, by rfl⟩

/-- C10 fails on the code: for `/a?x=%80000000` the digits `80000000` read in
base 16 are 2147483648, one more than the largest `int`, so `std::stoi` throws
`std::out_of_range` and the exception leaves `getArgsFromTarget`. -/
theorem getArgsFromTarget_throws :
    hexValue "80000000".toList = INT_MAX + 1 ∧
      stoi "80000000".toList = .error .out_of_range ∧
      getArgsFromTarget "/a?x=%80000000".toList = .error .out_of_range :=
  ⟨by rfl, by rfl, by rfl⟩

end echo
